import Mathlib

/-!
Verification of the timing core in `src/timer.rs` (LogBuffer, TimeContext,
duration conversions and the fixed-timestep helpers).

Durations are modelled as total nanosecond counts (`ℕ`): a Rust
`std::time::Duration` is a pair of seconds (`u64`) and sub-second
nanoseconds (`u32 < 10^9`), and its addition, subtraction, comparison and
normalization agree with arithmetic on the total nanosecond count.
Operations that can panic in Rust (subtraction underflow, division by
zero) are modelled as `Option`-valued functions returning `none` on the
panicking branch.  Monotonic-clock instants are not modelled; instead,
`tick` takes the elapsed duration (`now - last_instant`, always
non-negative) as a parameter.

IEEE binary64 (`f64`) values and arithmetic are modelled exactly by
rationals together with a correct-rounding function `roundF64`
(round-to-nearest, ties to even) applied after every arithmetic
operation, as IEEE requires.  The model covers the normal finite range,
which is the range exercised here; the one infinity that can occur in
the embedded code paths (`1.0 / 0.0` in `fps_as_duration`, and the
division by a zero average in `get_fps`) is handled explicitly at its
use site.
-/

namespace Timer

/-- Fuel-based binary logarithm on naturals; structurally recursive so
that the kernel can evaluate it.  Agrees with `Nat.log2` whenever the
fuel is at least the argument. -/
def log2fuel : ℕ → ℕ → ℕ
  | 0, _ => 0
  | fuel + 1, n => if 2 ≤ n then log2fuel fuel (n / 2) + 1 else 0

/-- Floor of the base-2 logarithm of a natural number (0 at 0). -/
def natLog2 (n : ℕ) : ℕ := log2fuel n n

/-- Integer powers of two, as rationals. -/
def pow2 (e : ℤ) : ℚ := if 0 ≤ e then (2 : ℚ) ^ e.toNat else 1 / (2 : ℚ) ^ (-e).toNat

/-- Floor of the base-2 logarithm of a rational; meaningful for positive
arguments (the binary exponent of the IEEE representation). -/
def intLog2 (q : ℚ) : ℤ :=
  if 1 ≤ q then (natLog2 ⌊q⌋.toNat : ℤ)
  else -(natLog2 (⌈1 / q⌉.toNat - 1) + 1 : ℕ)

/-- Round a rational to the nearest integer, ties to even (the IEEE
default rounding attribute). -/
def rtne (q : ℚ) : ℤ :=
  if q - (⌊q⌋ : ℚ) < 1 / 2 then ⌊q⌋
  else if 1 / 2 < q - (⌊q⌋ : ℚ) then ⌊q⌋ + 1
  else if ⌊q⌋ % 2 = 0 then ⌊q⌋ else ⌊q⌋ + 1

/-- Correctly rounded value of a positive rational as an IEEE binary64
number (normal range): the significand is obtained by rounding at 53
significant bits, ties to even. -/
def roundPos (q : ℚ) : ℚ :=
  ((rtne (q * pow2 (52 - intLog2 q)) : ℤ) : ℚ) * pow2 (intLog2 q - 52)

/-- Correctly rounded value of a rational as an IEEE binary64 number
(normal finite range; rounding is symmetric around zero). -/
def roundF64 (q : ℚ) : ℚ :=
  if q = 0 then 0 else if q < 0 then -roundPos (-q) else roundPos q

/- Embedding of `src/timer.rs`. -/

/-- Rust saturating cast of an f64 to `u64` (`as u64`): truncate toward
zero, clamping negative values to 0 and large values to `u64::MAX`. -/
def castU64 (q : ℚ) : ℕ := if q < 0 then 0 else min (2 ^ 64 - 1) ⌊q⌋.toNat

/-- Rust saturating cast of an f64 to `u32` (`as u32`): truncate toward
zero, clamping negative values to 0 and large values to `u32::MAX`. -/
def castU32 (q : ℚ) : ℕ := if q < 0 then 0 else min (2 ^ 32 - 1) ⌊q⌋.toNat

/-- Rust `f64::trunc`: round toward zero.  Exact (no rounding error) on
every f64 value. -/
def truncQ (q : ℚ) : ℚ := if q < 0 then (⌈q⌉ : ℚ) else (⌊q⌋ : ℚ)

/-- Rust `f64::fract`: `self - self.trunc()`.  Exact on every f64 value. -/
def fractQ (q : ℚ) : ℚ := q - truncQ q

/-- Checked duration subtraction in total nanoseconds: Rust
`Duration - Duration` panics (`none`) when the result would be negative. -/
def durSub (a b : ℕ) : Option ℕ :=
  if b ≤ a then some (a - b) else none

/-- Division of a duration (total nanoseconds) by a scalar, following the
component-wise algorithm of Rust `Duration::checked_div`, with `none` for
division by zero (where `Duration / u32` panics).  The seconds component
is `t / 10^9` and the sub-second nanosecond component is `t % 10^9`. -/
def durDiv (t r : ℕ) : Option ℕ :=
  if r = 0 then none
  else
    some ((t / 1000000000 / r) * 1000000000 +
      (t % 1000000000 / r + (t / 1000000000 - t / 1000000000 / r * r) * 1000000000 / r))

/-- `duration_to_f64` from timer.rs: `seconds as f64 + f64::from(nanos) * 1e-9`
with every f64 operation correctly rounded.  The literal `1e-9` is itself
the rounded value of 10^-9, which is not exactly representable.  The
duration argument is given as a total nanosecond count. -/
def duration_to_f64 (d : ℕ) : ℚ :=
  roundF64 (roundF64 ((d / 1000000000 : ℕ) : ℚ) +
    roundF64 (roundF64 ((d % 1000000000 : ℕ) : ℚ) * roundF64 (1 / 1000000000)))

/-- The value computed by `f64_to_duration` from timer.rs (the release
build, where `debug_assert!` is compiled out):
`Duration::new(t.trunc() as u64, (t.fract() * 1e9) as u32)`, as a total
nanosecond count.  `Duration::new` carries `nanos ≥ 10^9` into the
seconds component, which the total count does automatically. -/
def f64_to_duration_val (t : ℚ) : ℕ :=
  castU64 (truncQ t) * 1000000000 + castU32 (roundF64 (fractQ t * 1000000000))

/-- `f64_to_duration` from timer.rs including its `debug_assert!(t >= 0.0)`:
with debug assertions enabled (`debugAssertions = true`) a negative input
panics (`none`); otherwise the value is computed as in the release build. -/
def f64_to_duration (debugAssertions : Bool) (t : ℚ) : Option ℕ :=
  if debugAssertions ∧ t < 0 then none else some (f64_to_duration_val t)

/-- `fps_as_duration` from timer.rs: `f64_to_duration(1.0 / f64::from(fps))`.
The `u32 → f64` conversion is exact; the division is correctly rounded.
For `fps = 0` the division yields `+∞`, which ℚ cannot represent: that
branch transcribes the IEEE path directly (`∞.trunc() as u64` saturates
to `u64::MAX`; `∞.fract()` is NaN and `NaN as u32` is 0).  The input
`1 / fps` is positive for `fps ≥ 1`, so the debug assertion never fires
and the release value is used. -/
def fps_as_duration (fps : ℕ) : ℕ :=
  if fps = 0 then (2 ^ 64 - 1) * 1000000000
  else f64_to_duration_val (roundF64 (1 / (fps : ℚ)))

/-- `LogBuffer` from timer.rs: a fixed array with a cursor, overwriting in
round-robin fashion. -/
structure LogBuffer (α : Type) where
  head : ℕ
  size : ℕ
  contents : List α
  deriving DecidableEq

/-- `LogBuffer::new(size, init_val)`: `size` slots holding `init_val`,
cursor 0, and the `size` field set to the full length. -/
def LogBuffer.new (size : ℕ) (init_val : α) : LogBuffer α :=
  { head := 0, size := size, contents := List.replicate size init_val }

/-- `LogBuffer::push`: advance the cursor modulo the length, overwrite the
slot at the new cursor, and saturate the `size` field at the length.
(With a zero-length buffer Rust would panic on the `%`; no zero-length
buffer is ever constructed by this module.) -/
def LogBuffer.push (b : LogBuffer α) (item : α) : LogBuffer α :=
  { head := (b.head + 1) % b.contents.length,
    size := min (b.size + 1) b.contents.length,
    contents := b.contents.set ((b.head + 1) % b.contents.length) item }

/-- `TimeContext` from timer.rs.  The two `Instant` fields are omitted:
they only ever enter the remaining state through the difference
`now - last_instant`, which `tick` receives as its argument. -/
structure TimeContext where
  frame_durations : LogBuffer ℕ
  residual_update_dt : ℕ
  frame_count : ℕ
  deriving DecidableEq

/-- `TIME_LOG_FRAMES`: how many frames update times are logged for. -/
def TIME_LOG_FRAMES : ℕ := 200

/-- `TimeContext::new()`: a 200-slot buffer of zero durations, zero
residual, zero frame count. -/
def TimeContext.new : TimeContext :=
  { frame_durations := LogBuffer.new TIME_LOG_FRAMES 0,
    residual_update_dt := 0,
    frame_count := 0 }

/-- `TimeContext::tick()`, with the elapsed time `now - last_instant`
passed in as `delta`: push the frame duration, bump the frame count, add
the delta to the residual accumulator. -/
def TimeContext.tick (tc : TimeContext) (delta : ℕ) : TimeContext :=
  { frame_durations := tc.frame_durations.push delta,
    residual_update_dt := tc.residual_update_dt + delta,
    frame_count := tc.frame_count + 1 }

/-- `get_average_delta`: fold the whole buffer with duration addition and
divide by the `size` field cast to `u32` (`none` models the division-by-
zero panic, which in fact never occurs: see the C6 theorem). -/
def get_average_delta (tc : TimeContext) : Option ℕ :=
  durDiv (tc.frame_durations.contents.foldl (fun d1 d2 => d1 + d2) 0)
    (tc.frame_durations.size % 2 ^ 32)

/-- Result of an f64 computation that may leave the finite range. -/
inductive F64 where
  | finite (val : ℚ)
  | inf
  deriving DecidableEq

/-- Finiteness test for an `F64` result. -/
def F64.isFinite : F64 → Bool
  | F64.finite _ => true
  | F64.inf => false

/-- `get_fps`: `1.0 / duration_to_f64(get_average_delta(ctx))`.  When the
average is the zero duration the IEEE division `1.0 / 0.0` yields `+∞`,
which the model represents explicitly. -/
def get_fps (tc : TimeContext) : Option F64 :=
  (get_average_delta tc).map fun d =>
    if duration_to_f64 d = 0 then F64.inf
    else F64.finite (roundF64 (1 / duration_to_f64 d))

/-- `check_update_time(ctx, target_fps)`: if the residual strictly exceeds
the target frame duration, subtract and report `true`; otherwise leave
the state alone and report `false`.  The subtraction is the panicking
Rust `-=`, modelled by `durSub` (the C7 theorem shows the panic branch is
unreachable). -/
def check_update_time (tc : TimeContext) (target_fps : ℕ) :
    Option (TimeContext × Bool) :=
  if fps_as_duration target_fps < tc.residual_update_dt then
    (durSub tc.residual_update_dt (fps_as_duration target_fps)).map
      (fun r => ({ tc with residual_update_dt := r }, true))
  else some (tc, false)

/-- `get_remaining_update_time`: the residual accumulator, unchanged. -/
def get_remaining_update_time (tc : TimeContext) : ℕ :=
  tc.residual_update_dt

/-- `get_ticks`: the number of `tick` calls so far. -/
def get_ticks (tc : TimeContext) : ℕ :=
  tc.frame_count

/-- One external event applied to a `TimeContext`: a loop iteration
(`tick`, carrying the elapsed duration measured by the clock) or a call
to `check_update_time` (carrying the target rate), keeping the updated
state. -/
inductive Ev where
  | tick (delta : ℕ)
  | check (fps : ℕ)

/-- Apply one event; `none` when the Rust code would panic. -/
def step (tc : TimeContext) : Ev → Option TimeContext
  | Ev.tick d => some (tc.tick d)
  | Ev.check fps => (check_update_time tc fps).map Prod.fst

/-- Run a list of events from a given state. -/
def runFrom (tc : TimeContext) : List Ev → Option TimeContext
  | [] => some tc
  | e :: rest =>
    match step tc e with
    | none => none
    | some tc2 => runFrom tc2 rest

/-- Run a list of events from a fresh `TimeContext`: every state reachable
through the public mutating operations is `run evs` for some list. -/
def run (evs : List Ev) : Option TimeContext :=
  runFrom TimeContext.new evs

/- Evaluation helpers for the model, used to compute concrete rounded
values in proofs. -/

lemma pow2_eval_pos (e : ℤ) (k : ℕ) (he : e.toNat = k) (h : 0 ≤ e) :
    pow2 e = (2 : ℚ) ^ k := by
  rw [pow2, if_pos h, he]

lemma pow2_eval_neg (e : ℤ) (k : ℕ) (he : (-e).toNat = k) (h : ¬ 0 ≤ e) :
    pow2 e = 1 / (2 : ℚ) ^ k := by
  rw [pow2, if_neg h, he]

lemma rtne_eval_lt (q : ℚ) (f : ℤ) (hf : ⌊q⌋ = f) (hr : q - (f : ℚ) < 1 / 2) :
    rtne q = f := by
  rw [rtne]
  simp only [hf]
  rw [if_pos hr]

lemma rtne_eval_gt (q : ℚ) (f : ℤ) (hf : ⌊q⌋ = f) (hr : 1 / 2 < q - (f : ℚ)) :
    rtne q = f + 1 := by
  rw [rtne]
  simp only [hf]
  rw [if_neg (by linarith), if_pos hr]

lemma pow2_zero : pow2 0 = 1 := by
  rw [pow2_eval_pos 0 0 (by omega) le_rfl]
  norm_num

lemma intLog2_eval_lt1 (q : ℚ) (h1 : ¬ 1 ≤ q) (n : ℕ) (hc : ⌈1 / q⌉ = (n : ℤ)) :
    intLog2 q = -(natLog2 (n - 1) + 1 : ℕ) := by
  rw [intLog2, if_neg h1, hc]
  norm_num

lemma intLog2_eval_ge1 (q : ℚ) (h1 : 1 ≤ q) (n : ℕ) (hf : ⌊q⌋ = (n : ℤ)) :
    intLog2 q = (natLog2 n : ℤ) := by
  rw [intLog2, if_pos h1, hf]
  norm_num

lemma roundF64_zero : roundF64 0 = 0 := by
  rw [roundF64, if_pos rfl]

lemma roundF64_eval_pos (q : ℚ) (h0 : 0 < q) : roundF64 q = roundPos q := by
  rw [roundF64, if_neg (by linarith), if_neg (by linarith)]

/- Algebra of `pow2` and correctness bounds for the rounding model. -/

lemma pow2_eq_zpow (e : ℤ) : pow2 e = (2 : ℚ) ^ e := by
  rw [pow2]
  split
  · rw [← zpow_natCast, Int.toNat_of_nonneg (by assumption)]
  · next h =>
    rw [← zpow_natCast, Int.toNat_of_nonneg (by omega : (0 : ℤ) ≤ -e), one_div,
      ← zpow_neg, neg_neg]

lemma pow2_pos (e : ℤ) : 0 < pow2 e := by
  rw [pow2_eq_zpow]
  positivity

lemma pow2_add (a b : ℤ) : pow2 (a + b) = pow2 a * pow2 b := by
  rw [pow2_eq_zpow, pow2_eq_zpow, pow2_eq_zpow, zpow_add₀ (by norm_num : (2 : ℚ) ≠ 0)]

lemma log2fuel_eq (fuel n : ℕ) (h : n ≤ fuel) : log2fuel fuel n = Nat.log2 n := by
  induction fuel generalizing n with
  | zero =>
    have hn : n = 0 := by omega
    subst hn
    rw [log2fuel, Nat.log2]
    norm_num
  | succ fuel ih =>
    rw [log2fuel, Nat.log2]
    by_cases h2 : 2 ≤ n
    · rw [if_pos h2, if_pos (by omega : n ≥ 2), ih (n / 2) (by omega)]
    · rw [if_neg h2, if_neg (by omega : ¬ n ≥ 2)]

lemma natLog2_eq (n : ℕ) : natLog2 n = Nat.log2 n := log2fuel_eq n n le_rfl

lemma natLog2_self_le (n : ℕ) (h : n ≠ 0) : 2 ^ natLog2 n ≤ n := by
  rw [natLog2_eq]
  exact Nat.log2_self_le h

lemma rtne_abs_le (q : ℚ) : |(rtne q : ℚ) - q| ≤ 1 / 2 := by
  have hfl : (⌊q⌋ : ℚ) ≤ q := Int.floor_le q
  have hfu : q < ⌊q⌋ + 1 := Int.lt_floor_add_one q
  rw [rtne]
  split_ifs with h1 h2 h3 <;> push_cast <;> rw [abs_le] <;> constructor <;> linarith

/-- The binary exponent bounds its argument from below: 2 ^ intLog2 q ≤ q. -/
lemma pow2_intLog2_le {q : ℚ} (hq : 0 < q) : pow2 (intLog2 q) ≤ q := by
  rw [intLog2]
  split
  · next h1 =>
    have hfl1 : (1 : ℤ) ≤ ⌊q⌋ := by
      rw [Int.le_floor]; exact_mod_cast h1
    set n : ℕ := ⌊q⌋.toNat with hn
    have hne : n ≠ 0 := by omega
    have hcast : ((n : ℤ) : ℚ) ≤ q := by
      rw [hn, Int.toNat_of_nonneg (by omega)]
      exact Int.floor_le q
    have hle : ((2 ^ natLog2 n : ℕ) : ℚ) ≤ ((n : ℕ) : ℚ) := by
      exact_mod_cast natLog2_self_le n hne
    rw [pow2_eval_pos _ (natLog2 n) (by simp) (by positivity)]
    push_cast at hle hcast ⊢
    linarith
  · next h1 =>
    have hq1 : q < 1 := by linarith [not_le.mp h1]
    have hr1 : 1 < 1 / q := by
      rw [lt_div_iff₀ hq]; linarith
    have hceil2 : (2 : ℤ) ≤ ⌈1 / q⌉ := by
      have : (1 : ℤ) < ⌈1 / q⌉ := by
        rw [Int.lt_ceil]; exact_mod_cast hr1
      omega
    set n : ℕ := ⌈1 / q⌉.toNat with hn
    have hn2 : 2 ≤ n := by omega
    have hnz : ((n : ℕ) : ℤ) = ⌈1 / q⌉ := by
      rw [hn]
      exact Int.toNat_of_nonneg (by omega)
    have hrn : 1 / q ≤ (n : ℚ) := by
      have h0 := Int.le_ceil (1 / q)
      rw [← hnz] at h0
      exact_mod_cast h0
    set M : ℕ := natLog2 (n - 1) + 1 with hM
    have hn2M : n ≤ 2 ^ M := by
      have heq := natLog2_eq (n - 1)
      have h2 : n - 1 < 2 ^ (Nat.log2 (n - 1) + 1) := Nat.lt_log2_self
      rw [hM, heq]
      omega
    rw [pow2_eval_neg _ M (by omega) (by omega)]
    rw [div_le_iff₀ (by positivity : (0 : ℚ) < (2 : ℚ) ^ M)]
    have hcast : ((n : ℕ) : ℚ) ≤ (2 : ℚ) ^ M := by exact_mod_cast hn2M
    have h5 : 1 / q ≤ (2 : ℚ) ^ M := le_trans hrn hcast
    rw [div_le_iff₀ hq] at h5
    linarith

/-- Correct-rounding error bound: rounding a positive rational to binary64
changes it by at most one part in 2^53. -/
lemma roundPos_err {q : ℚ} (hq : 0 < q) : |roundPos q - q| ≤ q * pow2 (-53) := by
  set e : ℤ := intLog2 q with he
  set y : ℚ := q * pow2 (52 - e) with hy
  have hq_eq : y * pow2 (e - 52) = q := by
    rw [hy, mul_assoc, ← pow2_add, show (52 - e) + (e - 52) = (0 : ℤ) by ring,
      pow2_zero, mul_one]
  have h1 : roundPos q - q = ((rtne y : ℚ) - y) * pow2 (e - 52) := by
    rw [roundPos, ← he, ← hy, sub_mul, hq_eq]
  rw [h1, abs_mul, abs_of_pos (pow2_pos _)]
  have h2 : |(rtne y : ℚ) - y| * pow2 (e - 52) ≤ (1 / 2) * pow2 (e - 52) :=
    mul_le_mul_of_nonneg_right (rtne_abs_le y) (le_of_lt (pow2_pos _))
  have h3 : (1 / 2 : ℚ) * pow2 (e - 52) = pow2 e * pow2 (-53) := by
    have hhalf : (1 / 2 : ℚ) = pow2 (-1) := by
      rw [pow2_eval_neg (-1) 1 (by omega) (by omega)]
      norm_num
    rw [hhalf, ← pow2_add, ← pow2_add]
    exact congrArg pow2 (by ring)
  have h4 : pow2 e * pow2 (-53) ≤ q * pow2 (-53) :=
    mul_le_mul_of_nonneg_right (pow2_intLog2_le hq) (le_of_lt (pow2_pos _))
  linarith

/-- Correct-rounding error bound for `roundF64` on non-negative inputs. -/
lemma roundF64_err {q : ℚ} (hq : 0 ≤ q) : |roundF64 q - q| ≤ q * pow2 (-53) := by
  rcases eq_or_lt_of_le hq with h | h
  · rw [← h, roundF64_zero]
    simp
  · rw [roundF64_eval_pos q h]
    exact roundPos_err h

lemma roundF64_nonneg {q : ℚ} (hq : 0 ≤ q) : 0 ≤ roundF64 q := by
  have h := roundF64_err hq
  have hp : (0 : ℚ) < pow2 (-53) := pow2_pos _
  have hval : pow2 (-53) = 1 / 2 ^ 53 := pow2_eval_neg _ 53 (by omega) (by omega)
  rw [abs_le] at h
  nlinarith

lemma roundF64_le {q : ℚ} (hq : 0 ≤ q) : roundF64 q ≤ q * (1 + pow2 (-53)) := by
  have h := roundF64_err hq
  rw [abs_le] at h
  nlinarith [pow2_pos (-53)]

lemma roundF64_ge {q : ℚ} (hq : 0 ≤ q) : q * (1 - pow2 (-53)) ≤ roundF64 q := by
  have h := roundF64_err hq
  rw [abs_le] at h
  nlinarith [pow2_pos (-53)]


/- Concrete evaluations of the rounding chains used by the scenarios. -/

lemma castU32_eval (q : ℚ) (h0 : 0 ≤ q) (f : ℕ) (hf : ⌊q⌋ = (f : ℤ))
    (hle : f ≤ 2 ^ 32 - 1) : castU32 q = f := by
  rw [castU32, if_neg (by linarith), hf, Int.toNat_natCast, min_eq_right hle]

lemma f64_to_duration_val_frac (t : ℚ) (h0 : 0 ≤ t) (h1 : t < 1) (n : ℕ)
    (hn : castU32 (roundF64 (t * 1000000000)) = n) : f64_to_duration_val t = n := by
  have hfl : ⌊t⌋ = 0 := by
    rw [Int.floor_eq_zero_iff]
    exact ⟨h0, h1⟩
  have h2 : truncQ t = 0 := by
    rw [truncQ, if_neg (by linarith), hfl]
    norm_num
  have h3 : fractQ t = t := by rw [fractQ, h2, sub_zero]
  have h4 : castU64 (0 : ℚ) = 0 := by
    rw [castU64, if_neg (by norm_num)]
    norm_num
  rw [f64_to_duration_val, h2, h3, h4, hn, zero_mul, zero_add]

lemma fps_as_duration_eval (fps : ℕ) (hfps : ¬ fps = 0)
    (q : ℚ) (hq : roundF64 (1 / (fps : ℚ)) = q) (hq0 : 0 ≤ q) (hq1 : q < 1)
    (n : ℕ) (hn : castU32 (roundF64 (q * 1000000000)) = n) :
    fps_as_duration fps = n := by
  rw [fps_as_duration, if_neg hfps, hq, f64_to_duration_val_frac q hq0 hq1 n hn]

lemma roundF64_one_div_25 :
    roundF64 (1 / 25) = 5764607523034235 / 144115188075855872 := by
  rw [roundF64_eval_pos _ (by norm_num), roundPos]
  rw [show intLog2 (1 / 25 : ℚ) = -5 by
    rw [intLog2_eval_lt1 (1 / 25) (by norm_num) 25 (by norm_num)]; decide]
  rw [show ((52 : ℤ) - (-5)) = 57 by norm_num]
  rw [pow2_eval_pos 57 57 (by omega) (by norm_num)]
  rw [rtne_eval_gt _ 5764607523034234 (by norm_num) (by norm_num)]
  rw [show ((-5 : ℤ) - 52) = -57 by norm_num]
  rw [pow2_eval_neg (-57) 57 (by omega) (by norm_num)]
  norm_num

/-- The target frame duration for 25 fps is exactly 40 ms: all the IEEE
rounding in `1.0 / 25.0` followed by `fract() * 1e9` lands on exactly
40000000 nanoseconds. -/
lemma fps_as_duration_25 : fps_as_duration 25 = 40000000 := by
  apply fps_as_duration_eval 25 (by norm_num) (5764607523034235 / 144115188075855872)
  · rw [show ((25 : ℕ) : ℚ) = 25 by norm_num]
    exact roundF64_one_div_25
  · norm_num
  · norm_num
  · rw [roundF64_eval_pos _ (by norm_num), roundPos]
    rw [show intLog2 (5764607523034235 / 144115188075855872 * 1000000000 : ℚ) = 25 by
      rw [intLog2_eval_ge1 _ (by norm_num) 40000000 (by norm_num)]; decide]
    rw [show ((52 : ℤ) - 25) = 27 by norm_num]
    rw [pow2_eval_pos 27 27 (by omega) (by norm_num)]
    rw [rtne_eval_lt _ 5368709120000000 (by norm_num) (by norm_num)]
    rw [show ((25 : ℤ) - 52) = -27 by norm_num]
    rw [pow2_eval_neg (-27) 27 (by omega) (by norm_num)]
    exact castU32_eval _ (by norm_num) 40000000 (by norm_num) (by norm_num)

lemma roundF64_one_div_60 :
    roundF64 (1 / 60) = 4803839602528529 / 288230376151711744 := by
  rw [roundF64_eval_pos _ (by norm_num), roundPos]
  rw [show intLog2 (1 / 60 : ℚ) = -6 by
    rw [intLog2_eval_lt1 (1 / 60) (by norm_num) 60 (by norm_num)]; decide]
  rw [show ((52 : ℤ) - (-6)) = 58 by norm_num]
  rw [pow2_eval_pos 58 58 (by omega) (by norm_num)]
  rw [rtne_eval_lt _ 4803839602528529 (by norm_num) (by norm_num)]
  rw [show ((-6 : ℤ) - 52) = -58 by norm_num]
  rw [pow2_eval_neg (-58) 58 (by omega) (by norm_num)]
  norm_num

/-- The target frame duration for 60 fps: the rounding chain truncates to
16666666 nanoseconds (approximately 16.667 ms). -/
lemma fps_as_duration_60 : fps_as_duration 60 = 16666666 := by
  apply fps_as_duration_eval 60 (by norm_num) (4803839602528529 / 288230376151711744)
  · rw [show ((60 : ℕ) : ℚ) = 60 by norm_num]
    exact roundF64_one_div_60
  · norm_num
  · norm_num
  · rw [roundF64_eval_pos _ (by norm_num), roundPos]
    rw [show intLog2 (4803839602528529 / 288230376151711744 * 1000000000 : ℚ) = 23 by
      rw [intLog2_eval_ge1 _ (by norm_num) 16666666 (by norm_num)]; decide]
    rw [show ((52 : ℤ) - 23) = 29 by norm_num]
    rw [pow2_eval_pos 29 29 (by omega) (by norm_num)]
    rw [rtne_eval_lt _ 8947848533333333 (by norm_num) (by norm_num)]
    rw [show ((23 : ℤ) - 52) = -29 by norm_num]
    rw [pow2_eval_neg (-29) 29 (by omega) (by norm_num)]
    exact castU32_eval _ (by positivity) 16666666 (by norm_num) (by norm_num)

lemma duration_to_f64_zero : duration_to_f64 0 = 0 := by
  rw [duration_to_f64]
  rw [show (0 / 1000000000 : ℕ) = 0 by norm_num, show (0 % 1000000000 : ℕ) = 0 by norm_num]
  rw [Nat.cast_zero, roundF64_zero, zero_mul, roundF64_zero, add_zero, roundF64_zero]

lemma f64_to_duration_val_neg_one : f64_to_duration_val (-1) = 0 := by
  have h1 : truncQ (-1 : ℚ) = -1 := by
    rw [truncQ, if_pos (by norm_num),
      show ((-1 : ℚ)) = ((-1 : ℤ) : ℚ) by norm_num, Int.ceil_intCast]
  have h2 : fractQ (-1 : ℚ) = 0 := by
    rw [fractQ, h1]
    norm_num
  have h3 : castU64 (-1 : ℚ) = 0 := by rw [castU64, if_pos (by norm_num)]
  have h4 : castU32 (0 : ℚ) = 0 := by
    rw [castU32, if_neg (by norm_num)]
    norm_num
  rw [f64_to_duration_val, h1, h2, h3, zero_mul, zero_add, zero_mul, roundF64_zero, h4]

/- Behavior of `check_update_time` and the reachability invariant. -/

lemma check_update_time_eq (tc : TimeContext) (fps : ℕ) :
    check_update_time tc fps =
      some (if fps_as_duration fps < tc.residual_update_dt
        then ({ tc with residual_update_dt :=
                  tc.residual_update_dt - fps_as_duration fps }, true)
        else (tc, false)) := by
  rw [check_update_time]
  split
  · next h =>
    rw [durSub, if_pos (le_of_lt h), Option.map_some']
  · next h =>
    rfl

lemma check_update_time_isSome (tc : TimeContext) (fps : ℕ) :
    (check_update_time tc fps).isSome = true := by
  rw [check_update_time_eq]
  rfl

/-- The reachability invariant: the frame-duration buffer keeps its
`size` field and its physical length at the full 200 capacity. -/
def BufInv (tc : TimeContext) : Prop :=
  tc.frame_durations.size = 200 ∧ tc.frame_durations.contents.length = 200

lemma bufInv_new : BufInv TimeContext.new := by
  constructor
  · rfl
  · show (List.replicate TIME_LOG_FRAMES (0 : ℕ)).length = 200
    rw [List.length_replicate]
    rfl

lemma bufInv_tick (tc : TimeContext) (d : ℕ) (h : BufInv tc) : BufInv (tc.tick d) := by
  obtain ⟨h1, h2⟩ := h
  constructor
  · simp only [TimeContext.tick, LogBuffer.push, h1, h2]
    omega
  · simp only [TimeContext.tick, LogBuffer.push, List.length_set, h2]

lemma step_some_inv (tc : TimeContext) (e : Ev) (h : BufInv tc) :
    ∃ tc2, step tc e = some tc2 ∧ BufInv tc2 := by
  cases e with
  | tick d => exact ⟨tc.tick d, rfl, bufInv_tick tc d h⟩
  | check fps =>
    rw [step, check_update_time_eq, Option.map_some']
    split
    · exact ⟨_, rfl, h⟩
    · exact ⟨_, rfl, h⟩

lemma runFrom_some (evs : List Ev) (tc : TimeContext) (h : BufInv tc) :
    ∃ tc2, runFrom tc evs = some tc2 ∧ BufInv tc2 := by
  induction evs generalizing tc with
  | nil => exact ⟨tc, rfl, h⟩
  | cons e rest ih =>
    obtain ⟨tc2, hstep, hinv⟩ := step_some_inv tc e h
    rw [runFrom, hstep]
    exact ih tc2 hinv

/- Constant pushes fill the whole buffer: after the cursor wraps once,
every slot holds the pushed value. -/

lemma fold_push_size {α : Type} (C : ℕ) (items : List α) :
    ∀ b : LogBuffer α, b.size = C → b.contents.length = C →
      (items.foldl LogBuffer.push b).size = C ∧
      (items.foldl LogBuffer.push b).contents.length = C := by
  induction items with
  | nil => intro b h1 h2; exact ⟨h1, h2⟩
  | cons x rest ih =>
    intro b h1 h2
    rw [List.foldl_cons]
    refine ih (b.push x) ?_ ?_
    · rw [LogBuffer.push]
      simp only [List.length_set, h1, h2]
      omega
    · rw [LogBuffer.push]
      simp only [List.length_set, h2]

lemma fold_tick_buffer (l : List ℕ) :
    ∀ tc : TimeContext,
      (l.foldl TimeContext.tick tc).frame_durations =
        l.foldl LogBuffer.push tc.frame_durations := by
  induction l with
  | nil => intro tc; rfl
  | cons d rest ih =>
    intro tc
    rw [List.foldl_cons, List.foldl_cons, ih]
    rfl

lemma push_window (d : ℕ) (j : ℕ) :
    ∀ b : LogBuffer ℕ, b.contents.length = 200 → b.head < 200 →
      ((List.replicate j d).foldl LogBuffer.push b).contents.length = 200 ∧
      ((List.replicate j d).foldl LogBuffer.push b).head = (b.head + j) % 200 ∧
      (∀ i, i < 200 →
        ((∃ t, 1 ≤ t ∧ t ≤ j ∧ (b.head + t) % 200 = i) →
          ((List.replicate j d).foldl LogBuffer.push b).contents[i]? = some d) ∧
        ((∀ t, 1 ≤ t → t ≤ j → ¬ (b.head + t) % 200 = i) →
          ((List.replicate j d).foldl LogBuffer.push b).contents[i]? = b.contents[i]?)) := by
  induction j with
  | zero =>
    intro b hl hh
    refine ⟨hl, by rw [List.replicate_zero, List.foldl_nil]; omega,
      fun i hi => ⟨?_, fun _ => rfl⟩⟩
    rintro ⟨t, ht1, ht2, _⟩
    omega
  | succ j ih =>
    intro b hl hh
    obtain ⟨ihl, ihh, ihs⟩ := ih b hl hh
    rw [List.replicate_succ', List.foldl_append]
    set B := (List.replicate j d).foldl LogBuffer.push b with hB
    have hstar : (B.head + 1) % B.contents.length = (b.head + (j + 1)) % 200 := by
      rw [ihl, ihh]
      omega
    refine ⟨?_, ?_, ?_⟩
    · rw [List.foldl_cons, List.foldl_nil, LogBuffer.push]
      simp only [List.length_set, ihl]
    · rw [List.foldl_cons, List.foldl_nil, LogBuffer.push]
      simp only [hstar]
    · intro i hi
      constructor
      · rintro ⟨t, ht1, ht2, ht3⟩
        rw [List.foldl_cons, List.foldl_nil, LogBuffer.push]
        simp only [hstar]
        by_cases hii : (b.head + (j + 1)) % 200 = i
        · rw [hii]
          exact List.getElem?_set_self (by omega)
        · have ht2' : t ≤ j := by
            rcases Nat.lt_or_ge t (j + 1) with h | h
            · omega
            · exfalso; have : t = j + 1 := by omega
              subst this; exact hii ht3
          rw [List.getElem?_set_ne hii]
          exact (ihs i hi).1 ⟨t, ht1, ht2', ht3⟩
      · intro hmiss
        rw [List.foldl_cons, List.foldl_nil, LogBuffer.push]
        simp only [hstar]
        have hii : ¬ (b.head + (j + 1)) % 200 = i := hmiss (j + 1) (by omega) le_rfl
        rw [List.getElem?_set_ne hii]
        exact (ihs i hi).2 (fun t h1 h2 => hmiss t h1 (by omega))

lemma push200_replicate (d : ℕ) (b : LogBuffer ℕ) (hl : b.contents.length = 200)
    (hh : b.head < 200) :
    ((List.replicate 200 d).foldl LogBuffer.push b).contents = List.replicate 200 d := by
  obtain ⟨hlen, _, hslots⟩ := push_window d 200 b hl hh
  rw [List.eq_replicate_iff]
  refine ⟨hlen, fun x hx => ?_⟩
  obtain ⟨i, hin⟩ := List.mem_iff_getElem?.mp hx
  have hi : i < 200 := by
    by_contra hge
    rw [List.getElem?_eq_none (by omega)] at hin
    exact Option.noConfusion hin
  have hcov : ∃ t, 1 ≤ t ∧ t ≤ 200 ∧ (b.head + t) % 200 = i := by
    refine ⟨(i + 200 - (b.head + 1)) % 200 + 1, by omega, by omega, by omega⟩
  have := (hslots i hi).1 hcov
  rw [this] at hin
  exact (Option.some_injective _ hin).symm

lemma fold_push_replicate_stable (d m : ℕ) :
    ∀ b : LogBuffer ℕ, b.contents = List.replicate 200 d →
      ((List.replicate m d).foldl LogBuffer.push b).contents = List.replicate 200 d := by
  induction m with
  | zero => intro b hb; exact hb
  | succ m ih =>
    intro b hb
    rw [List.replicate_succ, List.foldl_cons]
    refine ih (b.push d) ?_
    rw [LogBuffer.push, hb]
    simp only [List.set_replicate_self]

lemma fold_const_contents (d n : ℕ) (hn : 200 ≤ n) :
    ((List.replicate n d).foldl LogBuffer.push (LogBuffer.new 200 0)).contents =
      List.replicate 200 d := by
  obtain ⟨m, rfl⟩ : ∃ m, n = 200 + m := ⟨n - 200, by omega⟩
  rw [List.replicate_add, List.foldl_append]
  refine fold_push_replicate_stable d m _ ?_
  refine push200_replicate d _ ?_ ?_
  · rw [LogBuffer.new, List.length_replicate]
  · rw [LogBuffer.new]
    show (0 : ℕ) < 200
    omega

lemma foldl_add_replicate (n a d : ℕ) :
    (List.replicate n d).foldl (fun d1 d2 => d1 + d2) a = a + n * d := by
  induction n generalizing a with
  | zero => simp
  | succ n ih =>
    rw [List.replicate_succ, List.foldl_cons, ih]
    ring

lemma durDiv_two_hundred (d : ℕ) : durDiv (200 * d) 200 = some d := by
  rw [durDiv, if_neg (by norm_num)]
  congr 1
  omega

/- Round-trip error analysis for the duration conversions. -/

lemma ceil_eval (q : ℚ) (z : ℤ) (h1 : (z : ℚ) - 1 < q) (h2 : q ≤ (z : ℚ)) : ⌈q⌉ = z := by
  rw [Int.ceil_eq_iff]
  exact ⟨h1, h2⟩

lemma encode_err (x : ℚ) (hx0 : 0 ≤ x) (hx1 : x ≤ 1000) :
    |((f64_to_duration_val x : ℕ) : ℚ) - x * 1000000000| ≤
      1 + 1000000000 * pow2 (-53) ∧
    f64_to_duration_val x ≤ 1001 * 1000000000 := by
  have hεpos : (0 : ℚ) < pow2 (-53) := pow2_pos _
  have hεval : pow2 (-53 : ℤ) = 1 / 2 ^ 53 := pow2_eval_neg _ 53 (by omega) (by omega)
  have hεsmall : (1000000000 : ℚ) * pow2 (-53) < 1 := by rw [hεval]; norm_num
  have hfl : (0 : ℤ) ≤ ⌊x⌋ := Int.floor_nonneg.mpr hx0
  have hfle : ((⌊x⌋ : ℤ) : ℚ) ≤ x := Int.floor_le x
  have hflt : x < ⌊x⌋ + 1 := Int.lt_floor_add_one x
  have hfloor1000 : ⌊x⌋ ≤ 1000 := by
    have h := Int.floor_le_floor hx1
    rwa [show ⌊(1000 : ℚ)⌋ = 1000 by norm_num] at h
  set s : ℕ := ⌊x⌋.toNat with hsdef
  have hs_int : ((s : ℕ) : ℤ) = ⌊x⌋ := Int.toNat_of_nonneg hfl
  have hs_cast : ((s : ℕ) : ℚ) = ((⌊x⌋ : ℤ) : ℚ) := by exact_mod_cast hs_int
  have hs1000 : s ≤ 1000 := by omega
  have htr : truncQ x = (s : ℚ) := by
    rw [truncQ, if_neg (by linarith), hs_cast]
  have hc64 : castU64 (truncQ x) = s := by
    rw [htr, castU64, if_neg (not_lt.mpr (by positivity)), Int.floor_natCast,
      Int.toNat_natCast, min_eq_right (by omega)]
  have hf0 : (0 : ℚ) ≤ x - (s : ℚ) := by rw [hs_cast]; linarith
  have hf1 : x - (s : ℚ) < 1 := by
    rw [hs_cast]
    push_cast at hflt ⊢
    linarith
  have hfr : fractQ x = x - (s : ℚ) := by rw [fractQ, htr]
  have hz0 : (0 : ℚ) ≤ (x - (s : ℚ)) * 1000000000 := by positivity
  have hz1 : (x - (s : ℚ)) * 1000000000 < 1000000000 := by nlinarith
  set z : ℚ := (x - (s : ℚ)) * 1000000000 with hzdef
  set y1 : ℚ := roundF64 z with hy1def
  have hy1err : |y1 - z| ≤ 1000000000 * pow2 (-53) := by
    calc |y1 - z| ≤ z * pow2 (-53) := roundF64_err hz0
      _ ≤ 1000000000 * pow2 (-53) :=
        mul_le_mul_of_nonneg_right (le_of_lt hz1) (le_of_lt hεpos)
  have hy10 : 0 ≤ y1 := roundF64_nonneg hz0
  have hy1lt : y1 < 1000000000 + 1 := by
    rw [abs_le] at hy1err
    linarith
  have hfloory : (0 : ℤ) ≤ ⌊y1⌋ := Int.floor_nonneg.mpr hy10
  have hfloory2 : ⌊y1⌋ ≤ 1000000000 := by
    have h2 : ⌊y1⌋ < 1000000001 := Int.floor_lt.mpr (by push_cast; linarith)
    omega
  set n : ℕ := ⌊y1⌋.toNat with hndef
  have hn_int : ((n : ℕ) : ℤ) = ⌊y1⌋ := Int.toNat_of_nonneg hfloory
  have hn1e9 : n ≤ 1000000000 := by omega
  have hc32 : castU32 y1 = n := by
    rw [castU32, if_neg (not_lt.mpr hy10), min_eq_right (by omega)]
  have hn_le : ((n : ℕ) : ℚ) ≤ y1 := by
    have h := Int.floor_le y1
    rw [← hn_int] at h
    exact_mod_cast h
  have hn_gt : y1 < (n : ℚ) + 1 := by
    have h := Int.lt_floor_add_one y1
    rw [← hn_int] at h
    exact_mod_cast h
  have hval : f64_to_duration_val x = s * 1000000000 + n := by
    rw [f64_to_duration_val, hc64, hfr, ← hzdef, ← hy1def, hc32]
  constructor
  · rw [hval]
    have habs : ((s * 1000000000 + n : ℕ) : ℚ) - x * 1000000000 = (n : ℚ) - z := by
      rw [hzdef]
      push_cast
      ring
    rw [habs]
    calc |(n : ℚ) - z| ≤ |(n : ℚ) - y1| + |y1 - z| := abs_sub_le _ _ _
      _ ≤ 1 + 1000000000 * pow2 (-53) := by
        have h1 : |(n : ℚ) - y1| ≤ 1 := by
          rw [abs_le]
          constructor <;> linarith
        linarith
  · rw [hval]
    omega

lemma decode_err (T : ℕ) (hT : T ≤ 1001 * 1000000000) :
    |duration_to_f64 T - (T : ℚ) / 1000000000| ≤ 2100 * pow2 (-53) := by
  have hεpos : (0 : ℚ) < pow2 (-53) := pow2_pos _
  have hεval : pow2 (-53 : ℤ) = 1 / 2 ^ 53 := pow2_eval_neg _ 53 (by omega) (by omega)
  have hεsmall : (1000000000 : ℚ) * pow2 (-53) < 1 := by rw [hεval]; norm_num
  have hε1 : pow2 (-53) ≤ 1 := by rw [hεval]; norm_num
  have hS2 : T / 1000000000 ≤ 1001 := by omega
  have hn2 : T % 1000000000 < 1000000000 := Nat.mod_lt _ (by norm_num)
  have hTsum : (T : ℚ) = ((T / 1000000000 : ℕ) : ℚ) * 1000000000 +
      ((T % 1000000000 : ℕ) : ℚ) := by
    have h := Nat.div_add_mod T 1000000000
    calc (T : ℚ) = ((1000000000 * (T / 1000000000) + T % 1000000000 : ℕ) : ℚ) := by rw [h]
      _ = ((T / 1000000000 : ℕ) : ℚ) * 1000000000 + ((T % 1000000000 : ℕ) : ℚ) := by
        push_cast
        ring
  set S2 : ℚ := ((T / 1000000000 : ℕ) : ℚ) with hS2def
  set n2 : ℚ := ((T % 1000000000 : ℕ) : ℚ) with hn2def
  have hS2b : S2 ≤ 1001 := by rw [hS2def]; exact_mod_cast hS2
  have hS20 : 0 ≤ S2 := by rw [hS2def]; positivity
  have hn2b : n2 ≤ 1000000000 := by rw [hn2def]; exact_mod_cast le_of_lt hn2
  have hn20 : 0 ≤ n2 := by rw [hn2def]; positivity
  set c : ℚ := roundF64 (1 / 1000000000) with hcdef
  have hc_err : |c - 1 / 1000000000| ≤ (1 / 1000000000) * pow2 (-53) :=
    roundF64_err (by norm_num)
  have hc0 : 0 ≤ c := roundF64_nonneg (by norm_num)
  have hc_le : c ≤ (1 / 1000000000) * (1 + pow2 (-53)) := by
    rw [abs_le] at hc_err
    nlinarith
  set rn : ℚ := roundF64 n2 with hrndef
  have hrn_err : |rn - n2| ≤ 1000000000 * pow2 (-53) := by
    calc |rn - n2| ≤ n2 * pow2 (-53) := roundF64_err hn20
      _ ≤ 1000000000 * pow2 (-53) := mul_le_mul_of_nonneg_right hn2b (le_of_lt hεpos)
  have hrn0 : 0 ≤ rn := roundF64_nonneg hn20
  have hrn_le : rn ≤ 1000000000 * (1 + pow2 (-53)) := by
    have h := roundF64_le hn20
    rw [← hrndef] at h
    nlinarith
  have hprod : |rn * c - n2 / 1000000000| ≤ 3 * pow2 (-53) := by
    have hsplit : rn * c - n2 / 1000000000 =
        (rn - n2) * c + n2 * (c - 1 / 1000000000) := by ring
    rw [hsplit]
    have e1 : |(rn - n2) * c| ≤ 2 * pow2 (-53) := by
      rw [abs_mul, abs_of_nonneg hc0]
      have h1 : |rn - n2| * c ≤ (1000000000 * pow2 (-53)) *
          ((1 / 1000000000) * (1 + pow2 (-53))) :=
        mul_le_mul hrn_err hc_le hc0 (by positivity)
      nlinarith
    have e2 : |n2 * (c - 1 / 1000000000)| ≤ pow2 (-53) := by
      rw [abs_mul, abs_of_nonneg hn20]
      have h1 : n2 * |c - 1 / 1000000000| ≤ 1000000000 * ((1 / 1000000000) * pow2 (-53)) :=
        mul_le_mul hn2b hc_err (abs_nonneg _) (by norm_num)
      nlinarith
    calc |(rn - n2) * c + n2 * (c - 1 / 1000000000)| ≤
        |(rn - n2) * c| + |n2 * (c - 1 / 1000000000)| := abs_add _ _
      _ ≤ 3 * pow2 (-53) := by linarith
  set p : ℚ := roundF64 (rn * c) with hpdef
  have hrc0 : 0 ≤ rn * c := by positivity
  have hrc_le : rn * c ≤ 4 := by nlinarith
  have hp_err : |p - rn * c| ≤ 4 * pow2 (-53) := by
    calc |p - rn * c| ≤ (rn * c) * pow2 (-53) := roundF64_err hrc0
      _ ≤ 4 * pow2 (-53) := mul_le_mul_of_nonneg_right hrc_le (le_of_lt hεpos)
  have hp0 : 0 ≤ p := roundF64_nonneg hrc0
  have hp_n2 : |p - n2 / 1000000000| ≤ 7 * pow2 (-53) := by
    calc |p - n2 / 1000000000| ≤ |p - rn * c| + |rn * c - n2 / 1000000000| :=
        abs_sub_le _ _ _
      _ ≤ 7 * pow2 (-53) := by linarith
  set rS : ℚ := roundF64 S2 with hrSdef
  have hrS_err : |rS - S2| ≤ 1001 * pow2 (-53) := by
    calc |rS - S2| ≤ S2 * pow2 (-53) := roundF64_err hS20
      _ ≤ 1001 * pow2 (-53) := mul_le_mul_of_nonneg_right hS2b (le_of_lt hεpos)
  have hrS0 : 0 ≤ rS := roundF64_nonneg hS20
  have hv_err : |rS + p - (S2 + n2 / 1000000000)| ≤ 1008 * pow2 (-53) := by
    have hsplit : rS + p - (S2 + n2 / 1000000000) =
        (rS - S2) + (p - n2 / 1000000000) := by ring
    rw [hsplit]
    calc |(rS - S2) + (p - n2 / 1000000000)| ≤
        |rS - S2| + |p - n2 / 1000000000| := abs_add _ _
      _ ≤ 1008 * pow2 (-53) := by linarith
  have hv0 : 0 ≤ rS + p := by linarith
  have hv_le : rS + p ≤ 1003 := by
    rw [abs_le] at hv_err
    have hd9 : n2 / 1000000000 ≤ 1 := by
      rw [div_le_one (by norm_num : (0 : ℚ) < 1000000000)]
      linarith
    linarith
  have hres_err : |roundF64 (rS + p) - (rS + p)| ≤ 1003 * pow2 (-53) := by
    calc |roundF64 (rS + p) - (rS + p)| ≤ (rS + p) * pow2 (-53) := roundF64_err hv0
      _ ≤ 1003 * pow2 (-53) := mul_le_mul_of_nonneg_right hv_le (le_of_lt hεpos)
  have hTdiv : (T : ℚ) / 1000000000 = S2 + n2 / 1000000000 := by
    rw [hTsum]
    field_simp
  have hgoal : duration_to_f64 T = roundF64 (rS + p) := by
    rw [duration_to_f64]
  rw [hgoal, hTdiv]
  calc |roundF64 (rS + p) - (S2 + n2 / 1000000000)| ≤
      |roundF64 (rS + p) - (rS + p)| + |rS + p - (S2 + n2 / 1000000000)| :=
        abs_sub_le _ _ _
    _ ≤ 2100 * pow2 (-53) := by linarith

lemma f64_val_pow2_neg31 : f64_to_duration_val (pow2 (-31)) = 0 := by
  have hp : pow2 (-31 : ℤ) = 1 / 2 ^ 31 := pow2_eval_neg _ 31 (by omega) (by omega)
  rw [hp]
  apply f64_to_duration_val_frac _ (by norm_num) (by norm_num) 0
  rw [roundF64_eval_pos _ (by norm_num), roundPos]
  rw [show intLog2 (1 / 2 ^ 31 * 1000000000 : ℚ) = -2 by
    rw [intLog2_eval_lt1 _ (by norm_num) 3 (ceil_eval _ 3 (by norm_num) (by norm_num))]
    decide]
  rw [show ((52 : ℤ) - (-2)) = 54 by norm_num, pow2_eval_pos 54 54 (by omega) (by norm_num)]
  rw [rtne_eval_lt _ 8388608000000000 (by norm_num) (by norm_num)]
  rw [show ((-2 : ℤ) - 52) = -54 by norm_num, pow2_eval_neg (-54) 54 (by omega) (by norm_num)]
  exact castU32_eval _ (by norm_num) 0 (by norm_num) (by norm_num)

/- Claim theorems. -/

/-- C1, counterexample: the claim says `create(capacity, sentinel)` starts
the logical entry count at 0 and that after k < capacity pushes it equals
k.  At capacity 3 the count is 3 immediately after creation, and 3 (not 1)
after one push, so the claimed property is false: `new` initializes the
`size` field to the full capacity, not to 0. -/
theorem c1_counterexample :
    ((LogBuffer.new 3 (0 : ℕ)).size = 0 ∧
      ((LogBuffer.new 3 (0 : ℕ)).push 7).size = 1) = False :=
  eq_false (by decide)

/-- C1, amended: for every capacity C > 0 and every sequence of pushes,
`logical_count()` (the `size` field) equals C — it is initialized to the
full capacity by `new` and `min (size + 1) capacity` keeps it there, so
it never reports a partial fill count. -/
theorem c1_logical_count_always_capacity {α : Type} (C : ℕ) (init : α)
    (hC : 0 < C) (items : List α) :
    (items.foldl LogBuffer.push (LogBuffer.new C init)).size = C := by
  have _ := hC
  refine (fold_push_size C items (LogBuffer.new C init) rfl ?_).1
  rw [LogBuffer.new, List.length_replicate]

/-- C1, witness: capacity 2, one push, logical count 2. -/
theorem c1_witness :
    (([7] : List ℕ).foldl LogBuffer.push (LogBuffer.new 2 0)).size = 2 :=
  c1_logical_count_always_capacity 2 0 (by norm_num) [7]

/-- C2, counterexample: the claim says `f64_to_duration (-1.0)` fails in
every build configuration.  In a build without debug assertions
(`debugAssertions = false`, the optimized/release configuration) it does
not fail: the `debug_assert!` is compiled out and the function returns
normally. -/
theorem c2_counterexample : (f64_to_duration false (-1) = none) = False := by
  apply eq_false
  rw [f64_to_duration, if_neg (by simp)]
  simp

/-- C2, amended: `f64_to_duration` rejects a negative input with its
assertion only when debug assertions are enabled; with debug assertions
disabled it silently returns a value, and for `-1.0` that value is the
zero duration (`trunc` and the saturating casts both collapse to 0). -/
theorem c2_assert_only_in_debug (t : ℚ) (ht : t < 0) :
    f64_to_duration true t = none ∧
    f64_to_duration false t = some (f64_to_duration_val t) ∧
    f64_to_duration false (-1) = some 0 := by
  refine ⟨?_, ?_, ?_⟩
  · rw [f64_to_duration, if_pos ⟨rfl, ht⟩]
  · rw [f64_to_duration, if_neg (by simp)]
  · rw [f64_to_duration, if_neg (by simp), f64_to_duration_val_neg_one]

/-- C2, witness: the amended claim at `t = -1`. -/
theorem c2_witness :
    f64_to_duration true (-1) = none ∧
    f64_to_duration false (-1) = some (f64_to_duration_val (-1)) ∧
    f64_to_duration false (-1) = some 0 :=
  c2_assert_only_in_debug (-1) (by norm_num)

set_option maxRecDepth 8000 in
/-- C3: `check_update_time` computes the target frame duration from the
rate and, when the residual strictly exceeds it, subtracts it and returns
true, otherwise returns false leaving the residual unchanged; for rate 25
the target duration is exactly 40 ms, and from a 45 ms residual the first
call returns true leaving 5 ms (`get_remaining_update_time`) and the next
call returns false. -/
theorem c3_consume_fixed_step :
    (∀ (tc : TimeContext) (fps : ℕ),
      check_update_time tc fps =
        some (if fps_as_duration fps < tc.residual_update_dt
          then ({ tc with residual_update_dt :=
                    tc.residual_update_dt - fps_as_duration fps }, true)
          else (tc, false))) ∧
    fps_as_duration 25 = 40000000 ∧
    check_update_time (TimeContext.new.tick 45000000) 25 =
      some ({ TimeContext.new.tick 45000000 with residual_update_dt := 5000000 },
        true) ∧
    get_remaining_update_time
      { TimeContext.new.tick 45000000 with residual_update_dt := 5000000 } =
        5000000 ∧
    check_update_time
      { TimeContext.new.tick 45000000 with residual_update_dt := 5000000 } 25 =
      some ({ TimeContext.new.tick 45000000 with residual_update_dt := 5000000 },
        false) := by
  refine ⟨check_update_time_eq, fps_as_duration_25, ?_, rfl, ?_⟩
  · rw [check_update_time_eq, fps_as_duration_25]
    decide
  · rw [check_update_time_eq, fps_as_duration_25]
    decide

set_option maxRecDepth 8000 in
/-- C4: with a 40 ms residual from a single tick, `check_update_time 60`
(target duration 16666666 ns, roughly 16.667 ms) returns true exactly
twice — leaving 23333334 ns and then 6666668 ns — and then returns false,
leaving `get_remaining_update_time` at 6666668 ns, roughly 6.67 ms. -/
theorem c4_two_steps_then_false :
    fps_as_duration 60 = 16666666 ∧
    check_update_time (TimeContext.new.tick 40000000) 60 =
      some ({ TimeContext.new.tick 40000000 with residual_update_dt := 23333334 },
        true) ∧
    check_update_time
      { TimeContext.new.tick 40000000 with residual_update_dt := 23333334 } 60 =
      some ({ TimeContext.new.tick 40000000 with residual_update_dt := 6666668 },
        true) ∧
    check_update_time
      { TimeContext.new.tick 40000000 with residual_update_dt := 6666668 } 60 =
      some ({ TimeContext.new.tick 40000000 with residual_update_dt := 6666668 },
        false) ∧
    get_remaining_update_time
      { TimeContext.new.tick 40000000 with residual_update_dt := 6666668 } =
        6666668 := by
  refine ⟨fps_as_duration_60, ?_, ?_, ?_, rfl⟩
  · rw [check_update_time_eq, fps_as_duration_60]
    decide
  · rw [check_update_time_eq, fps_as_duration_60]
    decide
  · rw [check_update_time_eq, fps_as_duration_60]
    decide

set_option maxRecDepth 8000 in
/-- C5: on a freshly constructed `TimeContext`, `get_average_delta` is the
zero duration, and `get_fps` evaluates (without any panic — it returns a
value) to the non-finite result `+∞` coming from the IEEE division
`1.0 / 0.0`. -/
theorem c5_fresh_rate_nonfinite :
    get_average_delta TimeContext.new = some 0 ∧
    get_fps TimeContext.new = some F64.inf ∧
    F64.isFinite F64.inf = false := by
  have havg : get_average_delta TimeContext.new = some 0 := by decide
  refine ⟨havg, ?_, rfl⟩
  rw [get_fps, havg, Option.map_some', if_pos duration_to_f64_zero]

/-- C6: in every reachable state (any sequence of `tick` and
`check_update_time` events from a fresh context), the divisor used by
`get_average_delta` — the buffer `size` field — is the full capacity 200,
hence positive, so the duration division never panics and
`get_average_delta` always returns a value. -/
theorem c6_average_divisor_positive :
    ∀ evs : List Ev, ∃ tc, run evs = some tc ∧
      tc.frame_durations.size = 200 ∧ 0 < tc.frame_durations.size ∧
      (get_average_delta tc).isSome = true := by
  intro evs
  obtain ⟨tc, h1, hinv⟩ := runFrom_some evs TimeContext.new bufInv_new
  have hnz : ¬ (tc.frame_durations.size % 2 ^ 32 = 0) := by
    rw [hinv.1]
    decide
  refine ⟨tc, h1, hinv.1, by omega, ?_⟩
  rw [get_average_delta, durDiv, if_neg hnz]
  rfl

/-- C7: `check_update_time` never panics (the checked subtraction always
succeeds, because it is guarded by a strict comparison), and along every
sequence of `tick` and `check_update_time` events from a fresh context
the run completes and `get_remaining_update_time` is a duration, hence
non-negative. -/
theorem c7_no_underflow_nonneg :
    (∀ (tc : TimeContext) (fps : ℕ), (check_update_time tc fps).isSome = true) ∧
    (∀ evs : List Ev, ∃ tc, run evs = some tc ∧
      0 ≤ (get_remaining_update_time tc : ℤ)) := by
  refine ⟨check_update_time_isSome, fun evs => ?_⟩
  obtain ⟨tc, h1, _⟩ := runFrom_some evs TimeContext.new bufInv_new
  exact ⟨tc, h1, Int.natCast_nonneg _⟩

/-- C8: if at least 200 ticks have happened, all with the same frame
duration d, then `get_average_delta` returns exactly d: every one of the
200 slots holds d (the cursor has wrapped), the sum is 200·d, and the
division by the size field 200 is exact.  The bound on d keeps the
200-fold sum inside the range of a Rust `Duration`, where the modelled
and the real arithmetic agree (beyond it the Rust addition would panic
on overflow rather than return a value). -/
theorem c8_constant_average (d n : ℕ) (hn : 200 ≤ n)
    (hd : 200 * d ≤ (2 ^ 64 - 1) * 1000000000 + 999999999) :
    get_average_delta ((List.replicate n d).foldl TimeContext.tick TimeContext.new) =
      some d := by
  have _ := hd
  have hnf : TimeContext.new.frame_durations = LogBuffer.new 200 0 := rfl
  have hbuf := fold_tick_buffer (List.replicate n d) TimeContext.new
  have hc := fold_const_contents d n hn
  have hsz : ((List.replicate n d).foldl LogBuffer.push (LogBuffer.new 200 0)).size
      = 200 :=
    (fold_push_size 200 (List.replicate n d) (LogBuffer.new 200 0) rfl
      (by rw [LogBuffer.new, List.length_replicate])).1
  rw [get_average_delta, hbuf, hnf, hc, hsz, foldl_add_replicate,
    show (200 % 2 ^ 32 : ℕ) = 200 by decide, Nat.zero_add]
  exact durDiv_two_hundred d

/-- C8, witness: 200 ticks of 1 ms average to exactly 1 ms. -/
theorem c8_witness :
    get_average_delta
      ((List.replicate 200 1000000).foldl TimeContext.tick TimeContext.new) =
      some 1000000 :=
  c8_constant_average 1000000 200 (by norm_num) (by norm_num)

/-- C9, counterexample: the claim says the round trip
`duration_to_f64 (f64_to_duration x)` is within floating-point epsilon
(2^-52, relative or absolute) of every x ≥ 0.  At x = 2^-31 the
sub-nanosecond value is truncated away entirely by the `as u32` cast, the
round trip returns 0, and the error 2^-31 exceeds 2^-52 by far. -/
theorem c9_counterexample :
    (|duration_to_f64 (f64_to_duration_val (pow2 (-31))) - pow2 (-31)| ≤
      pow2 (-52) * max 1 |pow2 (-31)|) = False := by
  apply eq_false
  rw [f64_val_pow2_neg31, duration_to_f64_zero,
    pow2_eval_neg (-52) 52 (by omega) (by omega),
    pow2_eval_neg (-31) 31 (by omega) (by omega)]
  intro h
  have h2 : |(0 : ℚ) - 1 / 2 ^ 31| = 1 / 2 ^ 31 := by
    rw [zero_sub, abs_neg, abs_of_pos (by norm_num)]
  have h3 : max (1 : ℚ) |1 / 2 ^ 31| = 1 :=
    max_eq_left (by rw [abs_of_pos (by norm_num)]; norm_num)
  rw [h2, h3, mul_one] at h
  norm_num at h

/-- C9, amended: for inputs in the documented operating range
(0 ≤ x ≤ 1000 seconds), the round trip is within 2 nanoseconds (2·10^-9)
of x: the `as u32` truncation loses up to one nanosecond and all the
floating-point roundings together stay well below another nanosecond.
Machine-epsilon relative accuracy, as originally claimed, is
unattainable because of the nanosecond truncation. -/
theorem c9_roundtrip_within_2ns (x : ℚ) (hx0 : 0 ≤ x) (hx1 : x ≤ 1000) :
    |duration_to_f64 (f64_to_duration_val x) - x| ≤ 2 / 1000000000 := by
  obtain ⟨h1, h2⟩ := encode_err x hx0 hx1
  have h3 := decode_err (f64_to_duration_val x) h2
  have habs : |((f64_to_duration_val x : ℕ) : ℚ) / 1000000000 - x| =
      |((f64_to_duration_val x : ℕ) : ℚ) - x * 1000000000| / 1000000000 := by
    rw [show ((f64_to_duration_val x : ℕ) : ℚ) / 1000000000 - x =
      (((f64_to_duration_val x : ℕ) : ℚ) - x * 1000000000) / 1000000000 by ring,
      abs_div, abs_of_pos (by norm_num : (0 : ℚ) < 1000000000)]
  have hεval : pow2 (-53 : ℤ) = 1 / 2 ^ 53 := pow2_eval_neg _ 53 (by omega) (by omega)
  calc |duration_to_f64 (f64_to_duration_val x) - x| ≤
      |duration_to_f64 (f64_to_duration_val x) -
        ((f64_to_duration_val x : ℕ) : ℚ) / 1000000000| +
      |((f64_to_duration_val x : ℕ) : ℚ) / 1000000000 - x| := abs_sub_le _ _ _
    _ ≤ 2100 * pow2 (-53) + (1 + 1000000000 * pow2 (-53)) / 1000000000 := by
        rw [habs]
        linarith [h1, h3]
    _ ≤ 2 / 1000000000 := by
        rw [hεval]
        norm_num

/-- C9, witness: the amended round-trip bound at x = 1/2. -/
theorem c9_witness :
    |duration_to_f64 (f64_to_duration_val (1 / 2)) - 1 / 2| ≤ 2 / 1000000000 :=
  c9_roundtrip_within_2ns (1 / 2) (by norm_num) (by norm_num)

/-- C10: each `tick` increments the counter reported by `get_ticks` by
exactly one, and after exactly k ticks from a fresh context `get_ticks`
returns k. -/
theorem c10_tick_counts :
    (∀ (tc : TimeContext) (d : ℕ), get_ticks (tc.tick d) = get_ticks tc + 1) ∧
    (∀ ds : List ℕ, get_ticks (ds.foldl TimeContext.tick TimeContext.new) =
      ds.length) := by
  have key : ∀ (ds : List ℕ) (tc : TimeContext),
      get_ticks (ds.foldl TimeContext.tick tc) = get_ticks tc + ds.length := by
    intro ds
    induction ds with
    | nil => intro tc; rfl
    | cons d rest ih =>
      intro tc
      rw [List.foldl_cons, ih]
      show get_ticks tc + 1 + rest.length = get_ticks tc + (rest.length + 1)
      omega
  refine ⟨fun tc d => rfl, fun ds => ?_⟩
  rw [key ds TimeContext.new]
  show 0 + ds.length = ds.length
  omega

end Timer
